import Mathlib

/-
Verification of the wide-body engine maintenance scheduling model
(`data_loader.py`, `model_builder.py`, `heuristics.py`).

The MILP built by `build_model` is embedded shallowly: a candidate solution
is a `Sol` record assigning values to every decision variable, the binary
variables are `Bool` (with `bval` as the 0/1 indicator used inside the
linear expressions), the continuous variables `y` and `S` are rationals, and
`Feasible P x` is the conjunction of every constraint family that
`build_model` adds, translated one for one.  The greedy warm-start of
`heuristics.py` and the prefix-lookup loops of `data_loader.py` are embedded
as executable functions.
-/

namespace MILP

/-- Indicator value of a binary variable inside a linear expression. -/
def bval (b : Bool) : ℚ := if b then 1 else 0

/-- The parameter set produced by `load_data` and consumed by `build_model`:
`nAviones` aircraft (own engines carry ids 1..nAviones, the extra purchasable
engines the ids nAviones+1..nAviones+nExtra), horizon `H` weeks, maintenance
duration `d`, weekly maintenance-bay capacity `Mmax`, initial stock `S0`,
weekly cycle consumption `c` per aircraft, cycle ceiling `Ceil` per engine,
initial cycles `y0` per engine, and the two unit costs. -/
structure Params where
  nAviones : Nat
  nExtra : Nat
  H : Nat
  d : Nat
  Mmax : Nat
  S0 : ℚ
  c : Nat → ℚ
  Ceil : Nat → ℚ
  y0 : Nat → ℚ
  LeaseCost : ℚ
  BuyCost : ℚ

/-- `T = list(range(1, H+1))`. -/
abbrev weeks (P : Params) : List Nat := List.range' 1 P.H

/-- `P_WB = list(range(1, n_aviones+1))`. -/
abbrev planes (P : Params) : List Nat := List.range' 1 P.nAviones

/-- `I_WB = list(range(1, n_aviones+1)) + I_extra`. -/
abbrev engines (P : Params) : List Nat := List.range' 1 (P.nAviones + P.nExtra)

/-- `I_extra = list(range(n_aviones+1, n_aviones+n_extra+1))`. -/
abbrev extras (P : Params) : List Nat := List.range' (P.nAviones + 1) P.nExtra

/-- `quicksum` of `f` over an index list. -/
def qsum (l : List Nat) (f : Nat → ℚ) : ℚ := (l.map f).sum

/-- `max(C.values())` over all engine ids, as used for the relaxation term of
constraint 4.5 (all ceilings in the data are nonnegative, so folding from 0
agrees with the Python `max`). -/
def maxCv (P : Params) : ℚ := ((engines P).map P.Ceil).foldl max 0

/-- A candidate assignment of values to every decision variable of the model:
`a i p t` (engine `i` installed on aircraft `p` in week `t`), `s` (in stock),
`m` (maintenance start), `r` (maintenance active), `y` (accumulated cycles),
`S` (aggregate spare stock), `ell` (aircraft leased), `buy` (extra engine
purchased). -/
structure Sol where
  a : Nat → Nat → Nat → Bool
  s : Nat → Nat → Bool
  m : Nat → Nat → Bool
  r : Nat → Nat → Bool
  y : Nat → Nat → ℚ
  S : Nat → ℚ
  ell : Nat → Nat → Bool
  buy : Nat → Nat → Bool

/-- `buy_cum[i,t] = quicksum(buy_extra[i,tau] for tau in range(1, t+1))`. -/
def buyCum (x : Sol) (i t : Nat) : ℚ := qsum (List.range' 1 t) (fun τ => bval (x.buy i τ))

/-- The index window `range(max(1, t-d+1), t+1)` of constraint 4.3. -/
def maintWindow (dd t : Nat) : List Nat :=
  List.range' (max 1 (t + 1 - dd)) (t + 1 - max 1 (t + 1 - dd))

/-- `quicksum(c[p] * a[i,p,t] for p in P_WB)`: cycles gained by engine `i`
during week `t`. -/
def gained (P : Params) (x : Sol) (i t : Nat) : ℚ :=
  qsum (planes P) (fun p => P.c p * bval (x.a i p t))

/-- Constraints 4.0: week 1 is pinned.  Every own engine `i ≤ n_aviones` is
installed on its home aircraft (`a[i,i,1]=1`, `a[i,p,1]=0` for `p ≠ i`) and
is neither in maintenance nor in stock; every extra engine is absent. -/
abbrev initAssign (P : Params) (x : Sol) : Prop :=
  ∀ i ∈ engines P,
    (i ≤ P.nAviones →
      x.a i i 1 = true ∧ x.r i 1 = false ∧ x.s i 1 = false ∧
      ∀ p ∈ planes P, p ≠ i → x.a i p 1 = false) ∧
    (P.nAviones < i →
      (∀ p ∈ planes P, x.a i p 1 = false) ∧ x.r i 1 = false ∧ x.s i 1 = false)

/-- Constraints 4.1: state bookkeeping per engine and week.  Extras sum to
their cumulative purchases, own engines are in exactly one state. -/
abbrev exclusiveState (P : Params) (x : Sol) : Prop :=
  ∀ i ∈ engines P, ∀ t ∈ weeks P,
    (i ∈ extras P →
      qsum (planes P) (fun p => bval (x.a i p t)) + bval (x.r i t) + bval (x.s i t)
        = buyCum x i t) ∧
    (i ∉ extras P →
      qsum (planes P) (fun p => bval (x.a i p t)) + bval (x.r i t) + bval (x.s i t) = 1)

/-- Constraints 4.2: every aircraft is covered by exactly one engine or by a
lease, each week. -/
abbrev coverage (P : Params) (x : Sol) : Prop :=
  ∀ p ∈ planes P, ∀ t ∈ weeks P,
    qsum (engines P) (fun i => bval (x.a i p t)) + bval (x.ell p t) = 1

/-- Constraints 4.3: `r[i,t]` equals the sum of the maintenance starts in the
window `range(max(1, t-d+1), t+1)`. -/
abbrev maintDuration (P : Params) (x : Sol) : Prop :=
  ∀ i ∈ engines P, ∀ t ∈ weeks P,
    bval (x.r i t) = qsum (maintWindow P.d t) (fun τ => bval (x.m i τ))

/-- Constraints 4.4: cycle accumulation.  Week 1 starts from `y0`; for
`2 ≤ t ≤ d` plain accumulation; for `t > d` the exact piecewise reset
identity on `m[i,t-d]`. -/
abbrev cyclesLaw (P : Params) (x : Sol) : Prop :=
  ∀ i ∈ engines P,
    x.y i 1 = P.y0 i + gained P x i 1 ∧
    ∀ t ∈ weeks P, 2 ≤ t →
      (t ≤ P.d → x.y i t = x.y i (t-1) + gained P x i t) ∧
      (P.d < t →
        x.y i t = (1 - bval (x.m i (t - P.d))) * (x.y i (t-1) + gained P x i t)
                  + bval (x.m i (t - P.d)) * gained P x i t)

/-- Constraints 4.5: ceiling with a `max(C.values())`-sized relaxation term
for extra engines while in maintenance. -/
abbrev cycleLimitRelax (P : Params) (x : Sol) : Prop :=
  ∀ i ∈ engines P, ∀ t ∈ weeks P,
    x.y i t ≤ P.Ceil i + (if i ∈ extras P then maxCv P else 0) * bval (x.r i t)

/-- Constraints 4.6: at most `M_max` maintenance starts per week. -/
abbrev maintCapacity (P : Params) (x : Sol) : Prop :=
  ∀ t ∈ weeks P, qsum (engines P) (fun i => bval (x.m i t)) ≤ (P.Mmax : ℚ)

/-- Constraint 4.7 (week 1): `S[1] = S0 + purchases in week 1`. -/
abbrev stockInit (P : Params) (x : Sol) : Prop :=
  x.S 1 = P.S0 + qsum (extras P) (fun i => bval (x.buy i 1))

/-- Constraints 4.7 (later weeks): stock flow with purchases and the
maintenance returns of week `t-d` (present only when `t-d > 0`). -/
abbrev stockFlow (P : Params) (x : Sol) : Prop :=
  ∀ t ∈ weeks P, 2 ≤ t →
    x.S t = x.S (t-1) + qsum (extras P) (fun i => bval (x.buy i t))
            + (if 0 < t - P.d then qsum (engines P) (fun i => bval (x.m i (t - P.d))) else 0)

/-- Constraints 4.8: `a[i,p,t] ≥ a[i,p,t-1] - m[i,t]`. -/
abbrev continuity (P : Params) (x : Sol) : Prop :=
  ∀ i ∈ engines P, ∀ p ∈ planes P, ∀ t ∈ weeks P, 2 ≤ t →
    bval (x.a i p (t-1)) - bval (x.m i t) ≤ bval (x.a i p t)

/-- Constraints 4.9: an extra engine can be in stock only once bought. -/
abbrev noStockBeforeBuy (P : Params) (x : Sol) : Prop :=
  ∀ i ∈ extras P, ∀ t ∈ weeks P, bval (x.s i t) ≤ buyCum x i t

/-- Constraints 4.10: an extra engine can be installed only once bought. -/
abbrev assignOnlyIfBought (P : Params) (x : Sol) : Prop :=
  ∀ i ∈ extras P, ∀ p ∈ planes P, ∀ t ∈ weeks P, bval (x.a i p t) ≤ buyCum x i t

/-- Constraints 4.11: buying an extra engine in week `t` forces it to be
installed somewhere in week `t`. -/
abbrev useBoughtEngine (P : Params) (x : Sol) : Prop :=
  ∀ i ∈ extras P, ∀ t ∈ weeks P,
    bval (x.buy i t) ≤ qsum (planes P) (fun p => bval (x.a i p t))

/-- Constraints 4.12: each extra engine is bought at most once. -/
abbrev maxOnePurchase (P : Params) (x : Sol) : Prop :=
  ∀ i ∈ extras P, qsum (weeks P) (fun t => bval (x.buy i t)) ≤ 1

/-- Constraints 4.13: in every odd week `t ≥ 3` no maintenance starts, no
purchases, and leases, assignments and stock flags replicate week `t-1`. -/
abbrev oddFreeze (P : Params) (x : Sol) : Prop :=
  ∀ t ∈ weeks P, 2 ≤ t → t % 2 = 1 →
    (∀ i ∈ engines P, x.m i t = false) ∧
    (∀ i ∈ extras P, x.buy i t = false) ∧
    (∀ p ∈ planes P, x.ell p t = x.ell p (t-1)) ∧
    (∀ i ∈ engines P, ∀ p ∈ planes P, x.a i p t = x.a i p (t-1)) ∧
    (∀ i ∈ engines P, x.s i t = x.s i (t-1))

/-- Constraints 4.14: unconditional hard ceiling `y[i,t] ≤ C[i]` for every
engine and week. -/
abbrev cycleLimitHard (P : Params) (x : Sol) : Prop :=
  ∀ i ∈ engines P, ∀ t ∈ weeks P, x.y i t ≤ P.Ceil i

/-- A solution is feasible when it satisfies every constraint family that
`build_model` adds. -/
abbrev Feasible (P : Params) (x : Sol) : Prop :=
  initAssign P x ∧ exclusiveState P x ∧ coverage P x ∧ maintDuration P x ∧
  cyclesLaw P x ∧ cycleLimitRelax P x ∧ maintCapacity P x ∧ stockInit P x ∧
  stockFlow P x ∧ continuity P x ∧ noStockBeforeBuy P x ∧ assignOnlyIfBought P x ∧
  useBoughtEngine P x ∧ maxOnePurchase P x ∧ oddFreeze P x ∧ cycleLimitHard P x

/-- Section 5 objective: lease costs plus purchase costs. -/
def objective (P : Params) (x : Sol) : ℚ :=
  qsum (planes P) (fun p => qsum (weeks P) (fun t => P.LeaseCost * bval (x.ell p t)))
  + qsum (extras P) (fun i => qsum (weeks P) (fun t => P.BuyCost * bval (x.buy i t)))

/-- The inner loop of `warm_start`: `for i in range(1, len(P_WB)+1): if
cycles_greedy[i] + c[p] <= C[i]: elegido = i; break`.  Returns the first own
engine id with enough remaining cycle capacity for aircraft `p`, scanning
ids in increasing order. -/
def firstFit (P : Params) (cyc : Nat → ℚ) (p : Nat) : List Nat → Option Nat
  | [] => none
  | i :: rest => if cyc i + P.c p ≤ P.Ceil i then some i else firstFit P cyc p rest

/-- Running state of the greedy heuristic: the mutable `cycles_greedy` copy
plus the `(i,p,t)` assignment hints and `(p,t)` lease hints set to 1 so far. -/
structure HS where
  cyc : Nat → ℚ
  aH : List (Nat × Nat × Nat)
  ellH : List (Nat × Nat)

/-- One `(t, p)` step of the heuristic: if some own engine fits, hint
`a[elegido,p,t] = 1` and charge `c[p]` to its running balance, otherwise
hint `ell[p,t] = 1`. -/
def assignPlane (P : Params) (t : Nat) (st : HS) (p : Nat) : HS :=
  match firstFit P st.cyc p (List.range' 1 P.nAviones) with
  | some i =>
      { cyc := fun j => if j = i then st.cyc j + P.c p else st.cyc j,
        aH := st.aH ++ [(i, p, t)], ellH := st.ellH }
  | none => { cyc := st.cyc, aH := st.aH, ellH := st.ellH ++ [(p, t)] }

/-- The full greedy loop of `warm_start`, started from a copy of the given
initial-cycles map: `for t in T: for p in P_WB: ...`. -/
def warmStartFrom (P : Params) (y0m : Nat → ℚ) : HS :=
  (weeks P).foldl (fun st t => (planes P).foldl (assignPlane P t) st) ⟨y0m, [], []⟩

/-- The hints `warm_start` computes when run on the parameter set itself. -/
def warmStartRun (P : Params) : HS := warmStartFrom P P.y0

/-- The mutable data `warm_start` can reach: the `y0` dictionary of the
parameter set and the current `.Start` hints of the assignment and lease
variables. -/
structure MStore where
  y0d : Nat → ℚ
  startA : List (Nat × Nat × Nat)
  startEll : List (Nat × Nat)

/-- `warm_start` as a state transformer: it copies `y0` (`params['y0'].copy()`),
resets every assignment/lease/purchase hint to 0, recomputes the greedy hints
from the copy, and leaves `y0` itself untouched. -/
def warm_start (P : Params) (σ : MStore) : MStore :=
  ⟨σ.y0d, (warmStartFrom P σ.y0d).aH, (warmStartFrom P σ.y0d).ellH⟩

/-- One key per decision variable declared by `build_model` via `addVars`. -/
inductive VarKey where
  | aV : Nat → Nat → Nat → VarKey
  | sV : Nat → Nat → VarKey
  | mV : Nat → Nat → VarKey
  | rV : Nat → Nat → VarKey
  | ellV : Nat → Nat → VarKey
  | buyV : Nat → Nat → VarKey
deriving DecidableEq

/-- Keys of `a = model.addVars(I_WB, P_WB, T, vtype=BINARY)`: the declared
assignment-variable index set is the full dense product. -/
def allA (P : Params) : List VarKey :=
  (engines P).flatMap (fun i => (planes P).flatMap (fun p =>
    (weeks P).map (fun t => VarKey.aV i p t)))

/-- Keys of `s = model.addVars(I_WB, T, vtype=BINARY)`. -/
def allS (P : Params) : List VarKey :=
  (engines P).flatMap (fun i => (weeks P).map (fun t => VarKey.sV i t))

/-- Keys of `m = model.addVars(I_WB, T, vtype=BINARY)`. -/
def allM (P : Params) : List VarKey :=
  (engines P).flatMap (fun i => (weeks P).map (fun t => VarKey.mV i t))

/-- Keys of `r = model.addVars(I_WB, T, vtype=BINARY)`. -/
def allR (P : Params) : List VarKey :=
  (engines P).flatMap (fun i => (weeks P).map (fun t => VarKey.rV i t))

/-- Keys of `ell = model.addVars(P_WB, T, vtype=BINARY)`. -/
def allEll (P : Params) : List VarKey :=
  (planes P).flatMap (fun p => (weeks P).map (fun t => VarKey.ellV p t))

/-- Keys of `buy_extra = model.addVars(I_extra, T, vtype=BINARY)`. -/
def allBuy (P : Params) : List VarKey :=
  (extras P).flatMap (fun i => (weeks P).map (fun t => VarKey.buyV i t))

/-- All binary variables of the model. -/
def binaryKeys (P : Params) : List VarKey :=
  allA P ++ allS P ++ allM P ++ allR P ++ allEll P ++ allBuy P

/-- The variables whose `.Start` the reset loop of `warm_start` writes:
`list(a.values()) + list(ell.values()) + list(buy_extra.values())`. -/
def resetKeys (P : Params) : List VarKey := allA P ++ allEll P ++ allBuy P

/-- The variables the greedy loop of `warm_start` afterwards sets to 1. -/
def hintOnes (P : Params) : List VarKey :=
  (warmStartRun P).aH.map (fun q => VarKey.aV q.1 q.2.1 q.2.2)
  ++ (warmStartRun P).ellH.map (fun q => VarKey.ellV q.1 q.2)

/-- Every variable whose `.Start` attribute `warm_start` writes. -/
def writtenKeys (P : Params) : List VarKey := resetKeys P ++ hintOnes P

/-- Keys of assignment, lease or purchase variables. -/
def isAEB : VarKey → Bool
  | VarKey.aV _ _ _ => true
  | VarKey.ellV _ _ => true
  | VarKey.buyV _ _ => true
  | _ => false

/-- A row of `Fleet_status_WB.csv` as `load_data` consumes it: tail number,
operation code and initial cycle count (strings are modelled as character
lists; the pandas file-reading layer is abstracted into the given rows). -/
structure FleetRow where
  matricula : List Char
  operation : List Char
  cycles : ℚ
deriving DecidableEq

/-- Normalization applied to operation codes and lookup keys:
`.str.replace(r'[-\s]', '', regex=True).str.upper()`. -/
def normOp (l : List Char) : List Char :=
  (l.filter (fun ch => ch != '-' && !ch.isWhitespace)).map Char.toUpper

/-- `op.startswith(code)` on character lists. -/
def isPfx : List Char → List Char → Bool
  | [], _ => true
  | _ :: _, [] => false
  | x :: xs, b :: bs => x == b && isPfx xs bs

/-- `next((code for code in table if op.startswith(code)), None)` together
with the subsequent value lookup: the first table entry whose (normalized)
key is a prefix of the normalized operation code. -/
def findCode (table : List (List Char × ℚ)) (op : List Char) : Option (List Char × ℚ) :=
  table.find? (fun kv => isPfx kv.1 op)

/-- A per-row loop that raises on the first failing row, as the Python
`for _, row in df_status_wb.iterrows(): ... raise KeyError(...)` does. -/
def mapE {α β : Type} (f : α → Except (List Char) β) : List α → Except (List Char) (List β)
  | [] => Except.ok []
  | x :: xs =>
    match f x with
    | Except.error e => Except.error e
    | Except.ok b =>
      match mapE f xs with
      | Except.error e => Except.error e
      | Except.ok bs => Except.ok (b :: bs)

/-- Message of the `KeyError` raised when no rate matches an operation. -/
def rateMsg (op : List Char) : List Char :=
  "No encontré tasa para operación ".toList ++ op

/-- Message of the `KeyError` raised when no threshold matches an operation. -/
def thrMsg (op : List Char) : List Char :=
  "No umbral para operación ".toList ++ op

/-- The `c[id]` construction loop of `load_data`: per fleet row, the weekly
rate of the first rate-map key that is a prefix of the normalized operation
code, raising a `KeyError` naming the operation otherwise. -/
def buildC (rates : List (List Char × ℚ)) (rows : List FleetRow) :
    Except (List Char) (List ℚ) :=
  mapE (fun row =>
    match findCode rates (normOp row.operation) with
    | some kv => Except.ok kv.2
    | none => Except.error (rateMsg row.operation)) rows

/-- The `C[id]` construction loop of `load_data`: per fleet row, the ceiling
of the first family key that is a prefix of the normalized operation code,
raising a `KeyError` naming the operation otherwise. -/
def buildCmax (thrs : List (List Char × ℚ)) (rows : List FleetRow) :
    Except (List Char) (List ℚ) :=
  mapE (fun row =>
    match findCode thrs (normOp row.operation) with
    | some kv => Except.ok kv.2
    | none => Except.error (thrMsg row.operation)) rows

/-- The two lookup tables of the Parameter Set that depend on the fallible
per-row lookups: weekly rates `c` and ceilings `C` in fleet-row order. -/
structure LoadedParams where
  cVals : List ℚ
  CVals : List ℚ
deriving DecidableEq

/-- The fallible part of `load_data`: build `c` (raising on the first row
with no rate match), then `C` (raising on the first row with no family
match), and only then return the loaded tables. -/
def load_data (rates thrs : List (List Char × ℚ)) (rows : List FleetRow) :
    Except (List Char) LoadedParams :=
  match buildC rates rows with
  | Except.error e => Except.error e
  | Except.ok cv =>
    match buildCmax thrs rows with
    | Except.error e => Except.error e
    | Except.ok Cv => Except.ok ⟨cv, Cv⟩

/-- Assembly of the full Parameter Set from the loaded tables, as `load_data`
finishes it: ids `1..len(rows)` own, 3 extras with ceiling `max(C.values())`
and zero initial cycles, `T = 1..54`, `d = 18`, `S0 = 0`, `M_max = 5`. -/
def mkParams (lc bc : ℚ) (rows : List FleetRow) (lp : LoadedParams) : Params :=
  { nAviones := rows.length, nExtra := 3, H := 54, d := 18, Mmax := 5, S0 := 0,
    c := fun p => lp.cVals.getD (p - 1) 0,
    Ceil := fun i => if i ≤ rows.length then lp.CVals.getD (i - 1) 0
                     else lp.CVals.foldl max 0,
    y0 := fun i => if i ≤ rows.length then (rows.map FleetRow.cycles).getD (i - 1) 0 else 0,
    LeaseCost := lc, BuyCost := bc }

/-- The `main.py` sequencing `params = load_data(...)` then
`model = build_model(params)`: the model is built only when loading
succeeded. -/
def runPipeline (lc bc : ℚ) (rates thrs : List (List Char × ℚ))
    (rows : List FleetRow) : Except (List Char) Params :=
  match load_data rates thrs rows with
  | Except.error e => Except.error e
  | Except.ok lp => Except.ok (mkParams lc bc rows lp)

/-- Concrete instance: two aircraft with their two own engines, one week,
ample ceilings (the shape on which the greedy warm start already picks a
cross assignment). -/
def P2 : Params :=
  { nAviones := 2, nExtra := 0, H := 1, d := 1, Mmax := 5, S0 := 0,
    c := fun _ => 1, Ceil := fun _ => 10, y0 := fun _ => 0,
    LeaseCost := 1, BuyCost := 1 }

/-- Concrete instance: two aircraft, two own engines, four weeks, maintenance
duration 2. -/
def P4 : Params :=
  { nAviones := 2, nExtra := 0, H := 4, d := 2, Mmax := 2, S0 := 0,
    c := fun _ => 1, Ceil := fun _ => 10, y0 := fun _ => 0,
    LeaseCost := 1, BuyCost := 1 }

/-- Concrete instance: one aircraft with its own engine plus one purchasable
extra engine, two weeks. -/
def P5 : Params :=
  { nAviones := 1, nExtra := 1, H := 2, d := 1, Mmax := 5, S0 := 0,
    c := fun _ => 1, Ceil := fun _ => 10, y0 := fun _ => 0,
    LeaseCost := 1, BuyCost := 1 }

/-- A feasible schedule for `P4` in which own engine 1 serves aircraft 1 in
week 1, is in maintenance in weeks 2-3, and is then installed on the other
aircraft in week 4 (aircraft 2's own engine entering maintenance then and
aircraft 1 running on a lease from week 2 on). -/
def xC1 : Sol :=
  { a := fun i p t =>
      (i == 1 && p == 1 && t == 1) ||
      (i == 2 && p == 2 && (t == 1 || t == 2 || t == 3)) ||
      (i == 1 && p == 2 && t == 4),
    s := fun _ _ => false,
    m := fun i t => (i == 1 && t == 2) || (i == 2 && t == 4),
    r := fun i t => (i == 1 && (t == 2 || t == 3)) || (i == 2 && t == 4),
    y := fun i t => if i == 1 then 1 else if t == 1 then 1 else if t == 2 then 2 else 3,
    S := fun t => if t == 4 then 1 else 0,
    ell := fun p t => p == 1 && (t == 2 || t == 3 || t == 4),
    buy := fun _ _ => false }

/-- A feasible schedule for `P5`: the own engine flies its home aircraft in
both weeks, the extra engine is never bought. -/
def x5 : Sol :=
  { a := fun i p t => i == 1 && p == 1 && (t == 1 || t == 2),
    s := fun _ _ => false, m := fun _ _ => false, r := fun _ _ => false,
    y := fun i t => if i == 1 then (if t == 1 then 1 else 2) else 0,
    S := fun _ => 0, ell := fun _ _ => false, buy := fun _ _ => false }

/-- A candidate for `P5` that exercises the maintenance relaxation of
constraint 4.5: the extra engine is marked in maintenance in week 2 with an
accumulated-cycle value of 15, above its ceiling 10 but within the relaxed
bound 10 + 10. -/
def xRelax : Sol :=
  { a := fun i p t => i == 1 && p == 1 && (t == 1 || t == 2),
    s := fun _ _ => false, m := fun _ _ => false,
    r := fun i t => i == 2 && t == 2,
    y := fun i t => if i == 1 then (if t == 1 then 1 else 2)
                    else if t == 2 then 15 else 0,
    S := fun _ => 0, ell := fun _ _ => false, buy := fun _ _ => false }

theorem weeksP2 : weeks P2 = [1] := rfl

theorem planesP2 : planes P2 = [1, 2] := rfl

theorem weeksP4 : weeks P4 = [1, 2, 3, 4] := rfl

theorem planesP4 : planes P4 = [1, 2] := rfl

theorem enginesP4 : engines P4 = [1, 2] := rfl

theorem extrasP4 : extras P4 = ([] : List Nat) := rfl

theorem weeksP5 : weeks P5 = [1, 2] := rfl

theorem planesP5 : planes P5 = [1] := rfl

theorem enginesP5 : engines P5 = [1, 2] := rfl

theorem extrasP5 : extras P5 = [2] := rfl

theorem bval_nonneg (b : Bool) : 0 ≤ bval b := by
  cases b <;> simp [bval]

theorem bval_le_one (b : Bool) : bval b ≤ 1 := by
  cases b <;> norm_num [bval]

theorem bval_true_eq : bval true = 1 := rfl

theorem bval_false_eq : bval false = 0 := rfl

theorem eq_false_of_bval_eq_zero {b : Bool} (h : bval b = 0) : b = false := by
  cases b
  · rfl
  · exact absurd h (by norm_num [bval])

theorem bval_eq_one {b : Bool} (h : b = true) : bval b = 1 := by
  rw [h]; rfl

theorem qsum_nonneg {l : List Nat} {f : Nat → ℚ} (h : ∀ i ∈ l, 0 ≤ f i) :
    0 ≤ qsum l f := by
  refine List.sum_nonneg ?_
  intro q hq
  obtain ⟨i, hi, rfl⟩ := List.mem_map.mp hq
  exact h i hi

theorem qsum_eq_zero {l : List Nat} {f : Nat → ℚ} (h : ∀ i ∈ l, f i = 0) :
    qsum l f = 0 := by
  refine List.sum_eq_zero ?_
  intro q hq
  obtain ⟨i, hi, rfl⟩ := List.mem_map.mp hq
  exact h i hi

theorem exists_true_of_one_le_qsum {l : List Nat} {g : Nat → Bool}
    (h : 1 ≤ qsum l (fun p => bval (g p))) : ∃ p ∈ l, g p = true := by
  induction l with
  | nil => norm_num [qsum] at h
  | cons hd tl ih =>
    by_cases hg : g hd = true
    · exact ⟨hd, List.mem_cons_self hd tl, hg⟩
    · have hg' : g hd = false := by revert hg; cases g hd <;> simp
      have hsum : qsum (hd :: tl) (fun p => bval (g p)) = qsum tl (fun p => bval (g p)) := by
        simp [qsum, hg', bval]
      rw [hsum] at h
      obtain ⟨p, hp, hpt⟩ := ih h
      exact ⟨p, List.mem_cons_of_mem hd hp, hpt⟩

theorem qsum_range'_mono {t H : Nat} (hle : t ≤ H) (f : Nat → ℚ)
    (hf : ∀ i, 0 ≤ f i) :
    qsum (List.range' 1 t) f ≤ qsum (List.range' 1 H) f := by
  have hsplit : List.range' 1 t ++ List.range' (1 + t) (H - t) = List.range' 1 H := by
    have := List.range'_append_1 1 t (H - t)
    rwa [Nat.sub_add_cancel hle] at this
  calc qsum (List.range' 1 t) f
      ≤ qsum (List.range' 1 t) f + qsum (List.range' (1 + t) (H - t)) f := by
        have : 0 ≤ qsum (List.range' (1 + t) (H - t)) f :=
          qsum_nonneg (fun i _ => hf i)
        linarith
    _ = qsum (List.range' 1 H) f := by
        rw [← hsplit]
        simp only [qsum, List.map_append, List.sum_append]

theorem mem_weeks_iff {P : Params} {t : Nat} : t ∈ weeks P ↔ 1 ≤ t ∧ t < 1 + P.H :=
  List.mem_range'_1

theorem mem_planes_iff {P : Params} {p : Nat} :
    p ∈ planes P ↔ 1 ≤ p ∧ p < 1 + P.nAviones :=
  List.mem_range'_1

theorem mem_engines_iff {P : Params} {i : Nat} :
    i ∈ engines P ↔ 1 ≤ i ∧ i < 1 + (P.nAviones + P.nExtra) :=
  List.mem_range'_1

theorem mem_extras_iff {P : Params} {i : Nat} :
    i ∈ extras P ↔ P.nAviones + 1 ≤ i ∧ i < P.nAviones + 1 + P.nExtra :=
  List.mem_range'_1

theorem mem_engines_of_mem_extras {P : Params} {i : Nat} (h : i ∈ extras P) :
    i ∈ engines P := by
  rw [mem_extras_iff] at h
  rw [mem_engines_iff]
  omega

theorem nAviones_lt_of_mem_extras {P : Params} {i : Nat} (h : i ∈ extras P) :
    P.nAviones < i := by
  rw [mem_extras_iff] at h
  omega

theorem one_mem_weeks {P : Params} (h : 1 ≤ P.H) : 1 ∈ weeks P := by
  rw [mem_weeks_iff]
  omega

theorem buyCum_one (x : Sol) (i : Nat) : buyCum x i 1 = bval (x.buy i 1) := by
  simp [buyCum, qsum]

theorem feasible_P4_xC1 : Feasible P4 xC1 := by
  simp only [Feasible, initAssign, exclusiveState, coverage, maintDuration, cyclesLaw,
    cycleLimitRelax, maintCapacity, stockInit, stockFlow, continuity, noStockBeforeBuy,
    assignOnlyIfBought, useBoughtEngine, maxOnePurchase, oddFreeze, cycleLimitHard,
    weeksP4, planesP4, enginesP4, extrasP4, List.forall_mem_cons, List.forall_mem_nil,
    List.mem_cons, List.mem_singleton, List.not_mem_nil]
  norm_num [P4, xC1, qsum, bval, buyCum, maintWindow, gained, maxCv, List.range']
  all_goals decide

theorem feasible_P5_x5 : Feasible P5 x5 := by
  simp only [Feasible, initAssign, exclusiveState, coverage, maintDuration, cyclesLaw,
    cycleLimitRelax, maintCapacity, stockInit, stockFlow, continuity, noStockBeforeBuy,
    assignOnlyIfBought, useBoughtEngine, maxOnePurchase, oddFreeze, cycleLimitHard,
    weeksP5, planesP5, enginesP5, extrasP5, List.forall_mem_cons, List.forall_mem_nil,
    List.mem_cons, List.mem_singleton, List.not_mem_nil]
  norm_num [P5, x5, qsum, bval, buyCum, maintWindow, gained, maxCv, List.range']

/-- C1: the claim that an own engine can never be paired with a non-home
aircraft is false on this code.  `build_model` declares the dense variable
set `addVars(I_WB, P_WB, T)` (the key `a[1,2,4]` exists), and the concrete
schedule `xC1` is feasible for `P4` while assigning own engine 1 to the
non-home aircraft 2 in week 4. -/
theorem C1_counterexample :
    Feasible P4 xC1 ∧ xC1.a 1 2 4 = true ∧ 1 ≤ P4.nAviones ∧
    (2 = 1) = False ∧ 4 ∈ weeks P4 ∧ VarKey.aV 1 2 4 ∈ allA P4 :=
  ⟨feasible_P4_xC1, rfl, by norm_num [P4], by simp, by decide, by decide⟩

/-- C1 (amended): own engines are forced onto their home aircraft only in
week 1 — in every feasible solution `a[i,p,1] = 0` for every own engine `i`
and aircraft `p ≠ i` — while the declared assignment-variable set is the
dense product `I_WB × P_WB × T`. -/
theorem C1_own_home_only_week1 (P : Params) (x : Sol) (hF : Feasible P x)
    (i : Nat) (hi : i ∈ engines P) (hOwn : i ≤ P.nAviones)
    (p : Nat) (hp : p ∈ planes P) (hne : p ≠ i) :
    x.a i p 1 = false ∧ ∀ t ∈ weeks P, VarKey.aV i p t ∈ allA P := by
  obtain ⟨hInit, -⟩ := hF
  refine ⟨((hInit i hi).1 hOwn).2.2.2 p hp hne, ?_⟩
  intro t ht
  simp only [allA, List.mem_flatMap, List.mem_map]
  exact ⟨i, hi, p, hp, t, ht, rfl⟩

/-- C1 witness: the amended statement instantiated on `P4`, `xC1`, own engine
1 and aircraft 2. -/
theorem C1_theorem_witness :
    Feasible P4 xC1 ∧
    (xC1.a 1 2 1 = false ∧ ∀ t ∈ weeks P4, VarKey.aV 1 2 t ∈ allA P4) :=
  ⟨feasible_P4_xC1,
   C1_own_home_only_week1 P4 xC1 feasible_P4_xC1 1 (by decide) (by norm_num [P4])
     2 (by decide) (by decide)⟩

/-- C2: on the instance `P2` (two aircraft, ample ceilings) the warm-start
heuristic hints `a[1,2,1] = 1`, assigning own engine 1 to aircraft 2: the
inner loop scans all own engines in id order and picks the first with
capacity, so the matching pair `(2,2)` receives no hint even though engine
2 has capacity for its home aircraft (`y0[2] + c[2] ≤ C[2]`). -/
theorem C2_heuristic_cross_assigns :
    (warmStartRun P2).aH = [(1, 1, 1), (1, 2, 1)] ∧
    ((2, 2, 1) ∈ (warmStartRun P2).aH) = False ∧
    P2.y0 2 + P2.c 2 ≤ P2.Ceil 2 := by
  refine ⟨?_, ?_, by norm_num [P2]⟩
  · norm_num [warmStartRun, warmStartFrom, assignPlane, firstFit, P2, List.range', List.foldl]
  · norm_num [warmStartRun, warmStartFrom, assignPlane, firstFit, P2, List.range', List.foldl]

/-- C3: the claim that the constraint set admits feasible solutions in which
an extra engine in maintenance exceeds its ceiling is false: the candidate
`xRelax` stays within the relaxed bound of constraint 4.5 (`y[2,2] = 15 ≤
C[2] + max(C) = 20` with `r[2,2] = 1`) yet it violates the unconditional
constraint 4.14 (`y[i,t] ≤ C[i]`) and is infeasible. -/
theorem C3_counterexample :
    cycleLimitRelax P5 xRelax ∧ xRelax.r 2 2 = true ∧ 2 ∈ extras P5 ∧
    xRelax.y 2 2 = 15 ∧ P5.Ceil 2 = 10 ∧ maxCv P5 = 10 ∧
    cycleLimitHard P5 xRelax = False ∧ Feasible P5 xRelax = False := by
  refine ⟨?_, rfl, by decide, rfl, rfl, ?_, eq_false ?_, eq_false ?_⟩
  · simp only [cycleLimitRelax, weeksP5, enginesP5, extrasP5, List.forall_mem_cons,
      List.forall_mem_nil, List.mem_cons, List.mem_singleton, List.not_mem_nil]
    norm_num [P5, xRelax, bval, maxCv, List.foldl, max_def]
  · norm_num [maxCv, P5, List.foldl, max_def]
  · intro h
    have := h 2 (by decide) 2 (by decide)
    norm_num [P5, xRelax] at this
  · intro h
    have hhard := h.2.2.2.2.2.2.2.2.2.2.2.2.2.2.2
    have := hhard 2 (by decide) 2 (by decide)
    norm_num [P5, xRelax] at this

/-- C3 (amended): `y[i,t] ≤ C[i]` holds unconditionally in every feasible
solution, for every engine (extras in maintenance included): constraint 4.5
carries the relaxation term, but constraint 4.14 caps `y[i,t] ≤ C[i]` for
all engines and weeks, so the relaxation admits nothing. -/
theorem C3_hard_ceiling (P : Params) (x : Sol) (hF : Feasible P x) :
    ∀ i ∈ engines P, ∀ t ∈ weeks P, x.y i t ≤ P.Ceil i :=
  hF.2.2.2.2.2.2.2.2.2.2.2.2.2.2.2

/-- C3 witness: the amended statement instantiated on `P5`, `x5`. -/
theorem C3_theorem_witness :
    Feasible P5 x5 ∧ x5.y 1 1 ≤ P5.Ceil 1 :=
  ⟨feasible_P5_x5, C3_hard_ceiling P5 x5 feasible_P5_x5 1 (by decide) 1 (by decide)⟩

/-- C4: the claim that all remaining model variables, the cycle accumulator
`y` included, replicate the previous week's value in odd weeks is false:
`xC1` is feasible for `P4` and in the odd week 3 engine 2 keeps flying, so
`y[2,3] = 3` differs from `y[2,2] = 2`. -/
theorem C4_counterexample :
    Feasible P4 xC1 ∧ 3 ∈ weeks P4 ∧ 2 ≤ 3 ∧ 3 % 2 = 1 ∧
    xC1.y 2 3 = 3 ∧ xC1.y 2 2 = 2 ∧ (xC1.y 2 3 = xC1.y 2 2) = False :=
  ⟨feasible_P4_xC1, by decide, by norm_num, by norm_num, rfl, rfl,
   eq_false (by norm_num [xC1])⟩

/-- C4 (amended): in every feasible solution, for every odd week `t > 1`,
the maintenance starts are zero, the purchases are zero, and the lease,
assignment and stock binaries replicate their week `t-1` values; the
constraint set does not force the cycle accumulator `y`, the aggregate
stock `S`, or the maintenance-active flags to replicate. -/
theorem C4_odd_week_freeze (P : Params) (x : Sol) (hF : Feasible P x)
    (t : Nat) (ht : t ∈ weeks P) (h2 : 2 ≤ t) (hodd : t % 2 = 1) :
    (∀ i ∈ engines P, x.m i t = false) ∧
    (∀ i ∈ extras P, x.buy i t = false) ∧
    (∀ p ∈ planes P, x.ell p t = x.ell p (t-1)) ∧
    (∀ i ∈ engines P, ∀ p ∈ planes P, x.a i p t = x.a i p (t-1)) ∧
    (∀ i ∈ engines P, x.s i t = x.s i (t-1)) :=
  hF.2.2.2.2.2.2.2.2.2.2.2.2.2.2.1 t ht h2 hodd

/-- C4 witness: the amended statement instantiated on `P4`, `xC1`, week 3. -/
theorem C4_theorem_witness :
    Feasible P4 xC1 ∧
    ((∀ i ∈ engines P4, xC1.m i 3 = false) ∧
     (∀ i ∈ extras P4, xC1.buy i 3 = false) ∧
     (∀ p ∈ planes P4, xC1.ell p 3 = xC1.ell p 2) ∧
     (∀ i ∈ engines P4, ∀ p ∈ planes P4, xC1.a i p 3 = xC1.a i p 2) ∧
     (∀ i ∈ engines P4, xC1.s i 3 = xC1.s i 2)) :=
  ⟨feasible_P4_xC1,
   C4_odd_week_freeze P4 xC1 feasible_P4_xC1 3 (by decide) (by norm_num) (by norm_num)⟩

/-- C5: cycle bookkeeping holds in every feasible solution exactly as
claimed: `y[i,1] = y0[i]` plus the week-1 gain, plain accumulation for
`1 < t ≤ d` with no completion lookup, the exact piecewise reset identity
for `t > d`, and — as its consequence — a completion exactly `d` weeks
after a start (`m[i,t-d] = 1`) discards the prior balance and keeps only
the current week's gain. -/
theorem C5_cycle_bookkeeping (P : Params) (x : Sol) (hF : Feasible P x)
    (hd : 1 ≤ P.d) (i : Nat) (hi : i ∈ engines P) :
    x.y i 1 = P.y0 i + gained P x i 1 ∧
    (∀ t ∈ weeks P, 2 ≤ t → t ≤ P.d → x.y i t = x.y i (t-1) + gained P x i t) ∧
    (∀ t ∈ weeks P, P.d < t →
      x.y i t = (1 - bval (x.m i (t - P.d))) * (x.y i (t-1) + gained P x i t)
                + bval (x.m i (t - P.d)) * gained P x i t) ∧
    (∀ t ∈ weeks P, P.d < t → x.m i (t - P.d) = true → x.y i t = gained P x i t) := by
  obtain ⟨-, -, -, -, hC, -⟩ := hF
  obtain ⟨h1, hrec⟩ := hC i hi
  refine ⟨h1, fun t ht h2 hle => (hrec t ht h2).1 hle,
    fun t ht hdt => (hrec t ht (by omega)).2 hdt, ?_⟩
  intro t ht hdt hm
  have hres := (hrec t ht (by omega)).2 hdt
  rw [hm, bval_true_eq] at hres
  linarith

/-- C5 witness: the statement instantiated on `P5`, `x5`, engine 1. -/
theorem C5_theorem_witness :
    Feasible P5 x5 ∧ 1 ≤ P5.d ∧ 1 ∈ engines P5 ∧
    x5.y 1 1 = P5.y0 1 + gained P5 x5 1 1 :=
  ⟨feasible_P5_x5, by decide, by decide,
   (C5_cycle_bookkeeping P5 x5 feasible_P5_x5 (by decide) 1 (by decide)).1⟩

/-- C6: purchase-before-use holds in every feasible solution: an extra
engine installed or stocked in week `t` has cumulative purchases through
week `t` equal to 1, and a purchase in week `t` forces installation on at
least one aircraft in week `t` itself. -/
theorem C6_purchase_before_use (P : Params) (x : Sol) (hF : Feasible P x)
    (i : Nat) (hi : i ∈ extras P) (t : Nat) (ht : t ∈ weeks P) :
    ((∃ p ∈ planes P, x.a i p t = true) ∨ x.s i t = true → buyCum x i t = 1) ∧
    (x.buy i t = true → ∃ p ∈ planes P, x.a i p t = true) := by
  obtain ⟨-, -, -, -, -, -, -, -, -, -, hStock, hAsg, hUse, hOne, -⟩ := hF
  have hub : buyCum x i t ≤ 1 := by
    have hmono : buyCum x i t ≤ qsum (weeks P) (fun τ => bval (x.buy i τ)) := by
      have htH : t ≤ P.H := by
        have := (mem_weeks_iff.mp ht).2
        omega
      exact qsum_range'_mono htH (fun τ => bval (x.buy i τ)) (fun τ => bval_nonneg _)
    exact le_trans hmono (hOne i hi)
  constructor
  · rintro (⟨p, hp, ha⟩ | hs)
    · have hlb := hAsg i hi p hp t ht
      rw [bval_eq_one ha] at hlb
      linarith
    · have hlb := hStock i hi t ht
      rw [bval_eq_one hs] at hlb
      linarith
  · intro hb
    have huse := hUse i hi t ht
    rw [bval_eq_one hb] at huse
    exact exists_true_of_one_le_qsum huse

/-- C6 witness: the statement instantiated on `P5`, `x5`, extra engine 2,
week 1. -/
theorem C6_theorem_witness :
    Feasible P5 x5 ∧ 2 ∈ extras P5 ∧ 1 ∈ weeks P5 ∧
    (((∃ p ∈ planes P5, x5.a 2 p 1 = true) ∨ x5.s 2 1 = true → buyCum x5 2 1 = 1) ∧
     (x5.buy 2 1 = true → ∃ p ∈ planes P5, x5.a 2 p 1 = true)) :=
  ⟨feasible_P5_x5, by decide, by decide,
   C6_purchase_before_use P5 x5 feasible_P5_x5 2 (by decide) 1 (by decide)⟩

theorem warmRunP2_aH : (warmStartRun P2).aH = [(1, 1, 1), (1, 2, 1)] := by
  norm_num [warmStartRun, warmStartFrom, assignPlane, firstFit, P2, List.range', List.foldl]

theorem warmRunP2_ellH : (warmStartRun P2).ellH = ([] : List (Nat × Nat)) := by
  norm_num [warmStartRun, warmStartFrom, assignPlane, firstFit, P2, List.range', List.foldl]

theorem hintOnesP2 : hintOnes P2 = [VarKey.aV 1 1 1, VarKey.aV 1 2 1] := by
  simp [hintOnes, warmRunP2_aH, warmRunP2_ellH]

/-- C7: the claim that the heuristic sets a hint on each binary variable —
the maintenance-start, maintenance-active and stock binaries included — is
false: on `P2` the reset loop touches only the assignment, lease and
purchase variables, so `m[1,1]`, `r[1,1]` and `s[1,1]` are binary variables
of the model whose `.Start` is never written. -/
theorem C7_counterexample :
    VarKey.mV 1 1 ∈ binaryKeys P2 ∧ (VarKey.mV 1 1 ∈ writtenKeys P2) = False ∧
    VarKey.rV 1 1 ∈ binaryKeys P2 ∧ (VarKey.rV 1 1 ∈ writtenKeys P2) = False ∧
    VarKey.sV 1 1 ∈ binaryKeys P2 ∧ (VarKey.sV 1 1 ∈ writtenKeys P2) = False := by
  refine ⟨by decide, eq_false ?_, by decide, eq_false ?_, by decide, eq_false ?_⟩ <;>
  · intro h
    simp only [writtenKeys, resetKeys, hintOnesP2, List.mem_append] at h
    rcases h with ((h | h) | h) | h <;> revert h <;> decide

/-- C7 (amended): the heuristic writes `.Start` hints exactly on the
assignment, lease and purchase binaries — every written key is one of
those, and every assignment, lease or purchase binary key is written (by
the reset loop) — while the maintenance-start, maintenance-active and
stock binaries receive none. -/
theorem C7_hints_only_assign_lease_buy (P : Params) :
    (∀ k ∈ writtenKeys P, isAEB k = true) ∧
    (∀ k ∈ binaryKeys P, isAEB k = true → k ∈ writtenKeys P) := by
  constructor
  · intro k hk
    simp only [writtenKeys, resetKeys, hintOnes, List.mem_append] at hk
    rcases hk with ((h | h) | h) | (h | h)
    · simp only [allA, List.mem_flatMap, List.mem_map] at h
      obtain ⟨i, -, p, -, t, -, rfl⟩ := h
      rfl
    · simp only [allEll, List.mem_flatMap, List.mem_map] at h
      obtain ⟨p, -, t, -, rfl⟩ := h
      rfl
    · simp only [allBuy, List.mem_flatMap, List.mem_map] at h
      obtain ⟨i, -, t, -, rfl⟩ := h
      rfl
    · obtain ⟨q, -, rfl⟩ := List.mem_map.mp h
      rfl
    · obtain ⟨q, -, rfl⟩ := List.mem_map.mp h
      rfl
  · intro k hk hAEB
    simp only [binaryKeys, List.mem_append] at hk
    have hreset : k ∈ resetKeys P := by
      rcases hk with ((((h | h) | h) | h) | h) | h
      · exact List.mem_append_left _ (List.mem_append_left _ h)
      · exact absurd hAEB (by
          simp only [allS, List.mem_flatMap, List.mem_map] at h
          obtain ⟨i, -, t, -, rfl⟩ := h
          simp [isAEB])
      · exact absurd hAEB (by
          simp only [allM, List.mem_flatMap, List.mem_map] at h
          obtain ⟨i, -, t, -, rfl⟩ := h
          simp [isAEB])
      · exact absurd hAEB (by
          simp only [allR, List.mem_flatMap, List.mem_map] at h
          obtain ⟨i, -, t, -, rfl⟩ := h
          simp [isAEB])
      · exact List.mem_append_left _ (List.mem_append_right _ h)
      · exact List.mem_append_right _ h
    exact List.mem_append_left _ hreset

/-- C7 witness: the amended statement instantiated on `P2` and the
assignment key `a[1,1,1]`. -/
theorem C7_theorem_witness :
    VarKey.aV 1 1 1 ∈ binaryKeys P2 ∧ isAEB (VarKey.aV 1 1 1) = true ∧
    VarKey.aV 1 1 1 ∈ writtenKeys P2 :=
  ⟨by decide, rfl,
   (C7_hints_only_assign_lease_buy P2).2 (VarKey.aV 1 1 1) (by decide) rfl⟩

theorem mapE_ok_of_forall {α β : Type} (f : α → Except (List Char) β) (l : List α)
    (h : ∀ x ∈ l, ∃ b, f x = Except.ok b) : ∃ bs, mapE f l = Except.ok bs := by
  induction l with
  | nil => exact ⟨[], rfl⟩
  | cons hd tl ih =>
    obtain ⟨b, hb⟩ := h hd (List.mem_cons_self hd tl)
    obtain ⟨bs, hbs⟩ := ih (fun x hx => h x (List.mem_cons_of_mem hd hx))
    exact ⟨b :: bs, by simp [mapE, hb, hbs]⟩

theorem mapE_error_first {α β : Type} (f : α → Except (List Char) β)
    (bad : α → Bool) (msg : α → List Char)
    (hgood : ∀ x, bad x = false → ∃ b, f x = Except.ok b)
    (hbad : ∀ x, bad x = true → f x = Except.error (msg x))
    (l : List α) (x₀ : α) (h : l.find? bad = some x₀) :
    mapE f l = Except.error (msg x₀) := by
  induction l with
  | nil => simp [List.find?] at h
  | cons hd tl ih =>
    by_cases hb : bad hd = true
    · rw [List.find?_cons_of_pos _ hb] at h
      injection h with h
      subst h
      simp [mapE, hbad hd hb]
    · have hb' : bad hd = false := by
        revert hb; cases bad hd <;> simp
      rw [List.find?_cons_of_neg _ (by simp [hb'])] at h
      obtain ⟨b, hfb⟩ := hgood hd hb'
      simp [mapE, hfb, ih h]

theorem buildC_error (rates : List (List Char × ℚ)) (rows : List FleetRow)
    (row : FleetRow)
    (h : rows.find? (fun rw => (findCode rates (normOp rw.operation)).isNone) = some row) :
    buildC rates rows = Except.error (rateMsg row.operation) := by
  refine mapE_error_first _ _ (fun rw => rateMsg rw.operation) ?_ ?_ rows row h
  · intro x hx
    rcases hfc : findCode rates (normOp x.operation) with _ | kv
    · simp [hfc] at hx
    · exact ⟨kv.2, by simp [hfc]⟩
  · intro x hx
    simp only [] at hx
    simp [Option.isNone_iff_eq_none.mp hx]

theorem buildCmax_error (thrs : List (List Char × ℚ)) (rows : List FleetRow)
    (row : FleetRow)
    (h : rows.find? (fun rw => (findCode thrs (normOp rw.operation)).isNone) = some row) :
    buildCmax thrs rows = Except.error (thrMsg row.operation) := by
  refine mapE_error_first _ _ (fun rw => thrMsg rw.operation) ?_ ?_ rows row h
  · intro x hx
    rcases hfc : findCode thrs (normOp x.operation) with _ | kv
    · simp [hfc] at hx
    · exact ⟨kv.2, by simp [hfc]⟩
  · intro x hx
    simp only [] at hx
    simp [Option.isNone_iff_eq_none.mp hx]

theorem buildC_ok (rates : List (List Char × ℚ)) (rows : List FleetRow)
    (h : ∀ row ∈ rows, (findCode rates (normOp row.operation)).isSome = true) :
    ∃ cv, buildC rates rows = Except.ok cv := by
  refine mapE_ok_of_forall _ _ ?_
  intro x hx
  obtain ⟨kv, hkv⟩ := Option.isSome_iff_exists.mp (h x hx)
  exact ⟨kv.2, by simp [hkv]⟩

theorem buildCmax_ok (thrs : List (List Char × ℚ)) (rows : List FleetRow)
    (h : ∀ row ∈ rows, (findCode thrs (normOp row.operation)).isSome = true) :
    ∃ Cv, buildCmax thrs rows = Except.ok Cv := by
  refine mapE_ok_of_forall _ _ ?_
  intro x hx
  obtain ⟨kv, hkv⟩ := Option.isSome_iff_exists.mp (h x hx)
  exact ⟨kv.2, by simp [hkv]⟩

/-- C8: ingestion fails fast.  If some fleet row's operation code matches no
rate key, the pipeline stops with the `KeyError` message naming the first
such row's operation and no Parameter Set (hence no model) is built; if the
rates all match but some row matches no family threshold, the pipeline
stops with the threshold `KeyError` naming that row's operation; and on
well-formed inputs the full Parameter Set is returned without error. -/
theorem C8_load_fail_fast (lc bc : ℚ) (rates thrs : List (List Char × ℚ))
    (rows : List FleetRow) :
    (∀ row, rows.find? (fun rw => (findCode rates (normOp rw.operation)).isNone) = some row →
      runPipeline lc bc rates thrs rows = Except.error (rateMsg row.operation)) ∧
    ((∀ row ∈ rows, (findCode rates (normOp row.operation)).isSome = true) →
      ∀ row, rows.find? (fun rw => (findCode thrs (normOp rw.operation)).isNone) = some row →
        runPipeline lc bc rates thrs rows = Except.error (thrMsg row.operation)) ∧
    ((∀ row ∈ rows, (findCode rates (normOp row.operation)).isSome = true) →
      (∀ row ∈ rows, (findCode thrs (normOp row.operation)).isSome = true) →
      ∃ lp, runPipeline lc bc rates thrs rows = Except.ok (mkParams lc bc rows lp)) := by
  refine ⟨?_, ?_, ?_⟩
  · intro row h
    have hC := buildC_error rates rows row h
    simp [runPipeline, load_data, hC]
  · intro hall row h
    obtain ⟨cv, hcv⟩ := buildC_ok rates rows hall
    have hM := buildCmax_error thrs rows row h
    simp [runPipeline, load_data, hcv, hM]
  · intro h1 h2
    obtain ⟨cv, hcv⟩ := buildC_ok rates rows h1
    obtain ⟨Cv, hCv⟩ := buildCmax_ok thrs rows h2
    exact ⟨⟨cv, Cv⟩, by simp [runPipeline, load_data, hcv, hCv]⟩

/-- Concrete ingestion input for the C8 witness: one matching row and one
row whose operation code `Z` matches no rate key. -/
def rates0 : List (List Char × ℚ) := [(['A', 'B'], 7)]

def thrs0 : List (List Char × ℚ) := [(['A'], 100)]

def row0bad : FleetRow := ⟨['M', '2'], ['Z'], 2⟩

def rows0 : List FleetRow := [⟨['M', '1'], ['A', 'B', '7'], 3⟩, row0bad]

/-- C8 witness: on `rows0` the rate lookup fails on the second row and the
pipeline returns exactly the `KeyError` naming its operation. -/
theorem C8_theorem_witness :
    rows0.find? (fun rw => (findCode rates0 (normOp rw.operation)).isNone) = some row0bad ∧
    runPipeline 1 1 rates0 thrs0 rows0 = Except.error (rateMsg row0bad.operation) :=
  ⟨by decide, (C8_load_fail_fast 1 1 rates0 thrs0 rows0).1 row0bad (by decide)⟩

/-- C9: the warm-start heuristic is idempotent and mutates no data it later
depends on.  Run as a transformer of the mutable store (the parameter set's
`y0` dictionary plus the current variable hints), it reads the initial
cycles through a copy, leaves `y0` unchanged, and resets every hint before
recomputing, so a second run reproduces the first run's store exactly. -/
theorem C9_warm_start_idempotent (P : Params) (σ : MStore) :
    warm_start P (warm_start P σ) = warm_start P σ ∧
    (warm_start P σ).y0d = σ.y0d :=
  ⟨rfl, rfl⟩

/-- Concrete store for the C9 witness: the `P2` initial cycles with no
hints yet set. -/
def store0 : MStore := ⟨P2.y0, [], []⟩

/-- C9 witness: idempotence instantiated on `P2` and `store0`. -/
theorem C9_theorem_witness :
    warm_start P2 (warm_start P2 store0) = warm_start P2 store0 ∧
    (warm_start P2 store0).y0d = store0.y0d :=
  C9_warm_start_idempotent P2 store0

/-- C10: in every feasible solution no extra engine is bought in week 1
(the week-1 pinning zeroes its assignment, maintenance and stock variables,
and the exactly-one-state equation ties their sum to the cumulative
purchases), and every purchase happens in an even week. -/
theorem C10_no_week1_purchase (P : Params) (x : Sol) (hF : Feasible P x)
    (hH : 1 ≤ P.H) (i : Nat) (hi : i ∈ extras P) :
    x.buy i 1 = false ∧ ∀ t ∈ weeks P, x.buy i t = true → t % 2 = 0 := by
  obtain ⟨hInit, hExcl, -, -, -, -, -, -, -, -, -, -, -, -, hFreeze, -⟩ := hF
  have hiE : i ∈ engines P := mem_engines_of_mem_extras hi
  have hgt : P.nAviones < i := nAviones_lt_of_mem_extras hi
  have h0 : x.buy i 1 = false := by
    have hinit := (hInit i hiE).2 hgt
    have hx := (hExcl i hiE 1 (one_mem_weeks hH)).1 hi
    rw [buyCum_one] at hx
    have hzero : qsum (planes P) (fun p => bval (x.a i p 1)) = 0 :=
      qsum_eq_zero (fun p hp => by rw [hinit.1 p hp]; rfl)
    rw [hzero, hinit.2.1, hinit.2.2] at hx
    apply eq_false_of_bval_eq_zero
    rw [← hx]
    norm_num [bval]
  refine ⟨h0, ?_⟩
  intro t ht hb
  by_contra hne
  have hodd : t % 2 = 1 := by omega
  rcases Nat.lt_or_ge t 2 with hlt | hge
  · have ht1 : t = 1 := by
      have := (mem_weeks_iff.mp ht).1
      omega
    rw [ht1, h0] at hb
    exact Bool.false_ne_true hb
  · have hfr := ((hFreeze t ht hge hodd).2.1) i hi
    rw [hfr] at hb
    exact Bool.false_ne_true hb

/-- C10 witness: the statement instantiated on `P5`, `x5`, extra engine 2. -/
theorem C10_theorem_witness :
    Feasible P5 x5 ∧ 1 ≤ P5.H ∧ 2 ∈ extras P5 ∧
    (x5.buy 2 1 = false ∧ ∀ t ∈ weeks P5, x5.buy 2 t = true → t % 2 = 0) :=
  ⟨feasible_P5_x5, by decide, by decide,
   C10_no_week1_purchase P5 x5 feasible_P5_x5 (by decide) 2 (by decide)⟩

end MILP
